import Mathlib

/-
  Verification of the rdio-monitor ingestion pipeline (src/rdio_scanner.py).

  Shallow embedding conventions:
  - Python values that flow through the untyped API payloads are modelled by
    PyVal: None, booleans, numbers, strings and flat lists of scalars.
    Numeric values are modelled as integers; the Python float(x) coercion is
    modelled by integer string parsing, which fails exactly on non-numeric
    strings, mirroring the ValueError / TypeError raised by float().
  - Timestamps are modelled as integers (Unix seconds).  The standard library
    function datetime.fromisoformat is treated as an abstract parameter
    (parseIso) of the parsing function, since its internals are outside the
    repository.
  - The calls table is modelled as a list of rows unique on call_id; the
    ON CONFLICT (call_id) DO UPDATE upsert of insert_call_record updates the
    matching row in place and otherwise appends.  The server-maintained id,
    created_at and updated_at columns are omitted from the row model: the
    INSERT statement never supplies them and no claim depends on them.
  - I/O outcomes of external effects (HTTP status, stream chunks, export
    success, file existence) are explicit inputs of the embedded functions,
    and the on-disk effect of each function is part of its result.
-/

/-- Scalar Python value as it appears in an API payload. -/
inductive PyScalar
  | vnone
  | vbool (b : Bool)
  | vint (n : Int)
  | vstr (s : String)
deriving DecidableEq, Repr, Inhabited

/-- Python value: a scalar or a (flat) list of scalars. -/
inductive PyVal
  | scalar (v : PyScalar)
  | vlist (xs : List PyScalar)
deriving DecidableEq, Repr, Inhabited

/-- Python truthiness of a value, as used in conditions and the or operator. -/
def truthy : PyVal → Bool
  | .scalar .vnone => false
  | .scalar (.vbool b) => b
  | .scalar (.vint n) => n != 0
  | .scalar (.vstr s) => !s.isEmpty
  | .vlist xs => !xs.isEmpty

/-- Python a or b: the first operand when truthy, otherwise the second. -/
def pyOr (a b : PyVal) : PyVal := if truthy a then a else b

/-- Python str() of a scalar. -/
def scalarStr : PyScalar → String
  | .vnone => "None"
  | .vbool b => if b then "True" else "False"
  | .vint n => toString n
  | .vstr s => s

/-- Python str() of a value. -/
def pyStr : PyVal → String
  | .scalar v => scalarStr v
  | .vlist xs => "[" ++ String.intercalate ", " (xs.map scalarStr) ++ "]"

/-- Digits of a numeric string, or none when any character is not a digit. -/
def digitsToNat? (cs : List Char) : Option Nat :=
  if cs = [] then none
  else if cs.all (fun c => c.isDigit) then
    some (cs.foldl (fun n c => 10 * n + (c.toNat - 48)) 0)
  else none

/-- Numeric-string parsing used to model float(s) over integer-valued
numbers: an optional minus sign followed by digits; any other string
(such as letters) fails, mirroring the ValueError of float(). -/
def strToInt? (s : String) : Option Int :=
  match s.data with
  | [] => none
  | c :: rest =>
    if c = '-' then (digitsToNat? rest).map (fun n => -(n : Int))
    else (digitsToNat? (c :: rest)).map (fun n => (n : Int))

/-- Python float(x), with numbers modelled as integers: succeeds on numbers
and numeric strings, fails (raises) on None, non-numeric strings and lists. -/
def pyFloat : PyVal → Option Int
  | .scalar (.vint n) => some n
  | .scalar (.vbool b) => some (if b then 1 else 0)
  | .scalar (.vstr s) => strToInt? s
  | .scalar .vnone => none
  | .vlist _ => none

/-- Raw API call payload: one field per dictionary key that
parse_call_record reads; an absent key is vnone (the .get default). -/
structure RawCall where
  id : PyVal := .scalar .vnone
  call_id : PyVal := .scalar .vnone
  timestamp : PyVal := .scalar .vnone
  time : PyVal := .scalar .vnone
  datetime : PyVal := .scalar .vnone
  frequency : PyVal := .scalar .vnone
  duration : PyVal := .scalar .vnone
  talkgroup : PyVal := .scalar .vnone
  tg : PyVal := .scalar .vnone
  source : PyVal := .scalar .vnone
  src : PyVal := .scalar .vnone
  audio_url : PyVal := .scalar .vnone
  audioUrl : PyVal := .scalar .vnone
  audio : PyVal := .scalar .vnone
  file : PyVal := .scalar .vnone
  units : PyVal := .scalar .vnone
  system : PyVal := .scalar .vnone
  system_name : PyVal := .scalar .vnone
  department : PyVal := .scalar .vnone
  agency : PyVal := .scalar .vnone
  type : PyVal := .scalar .vnone
  call_type : PyVal := .scalar .vnone
deriving DecidableEq, Repr, Inhabited

/-- The CallRecord dataclass.  The call_id field is kept as a PyVal because
parse_call_record stores whatever value the payload carried (the dataclass
annotation promises str but Python does not enforce it). -/
structure CallRecord where
  call_id : PyVal
  timestamp : Int
  frequency : Int
  talkgroup : Option String
  source : Option String
  duration : Int
  audio_url : PyVal
  audio_file_path : Option String
  system_name : PyVal
  department : PyVal
  call_type : PyVal
  units : List PyScalar
  metadata : Option RawCall
  processed : Bool
  created_at : Int
deriving DecidableEq, Repr

/-- The replace of Z by +00:00 applied before fromisoformat. -/
def isoNormalize (s : String) : String := s.replace "Z" "+00:00"

/-- RdioScannerClient.parse_call_record.  parseIso abstracts
datetime.fromisoformat (some t on success), now is the current time used by
the fallbacks and created_at, freshUuid is the str(uuid.uuid4()) value.
Returns none exactly when a float() coercion of a truthy frequency or
duration value raises. -/
def parse_call_record (parseIso : String → Option Int) (now : Int)
    (freshUuid : String) (api_call : RawCall) : Option CallRecord :=
  let call_id := pyOr api_call.id (pyOr api_call.call_id (.scalar (.vstr freshUuid)))
  let timestamp_raw := pyOr api_call.timestamp (pyOr api_call.time api_call.datetime)
  let timestamp : Int :=
    match timestamp_raw with
    | .scalar (.vint n) => n
    | .scalar (.vbool b) => if b then 1 else 0
    | .scalar (.vstr s) =>
      match parseIso (isoNormalize s) with
      | some t => t
      | none => now
    | _ => now
  (if truthy api_call.frequency then pyFloat api_call.frequency else some 0).bind
    fun frequency =>
  (if truthy api_call.duration then pyFloat api_call.duration else some 0).bind
    fun duration =>
  let tgRaw := pyOr api_call.talkgroup api_call.tg
  let talkgroup : Option String :=
    if tgRaw = .scalar .vnone then none else some (pyStr tgRaw)
  let srcRaw := pyOr api_call.source api_call.src
  let source : Option String :=
    if srcRaw = .scalar .vnone then none else some (pyStr srcRaw)
  let audio_url :=
    pyOr api_call.audio_url (pyOr api_call.audioUrl (pyOr api_call.audio api_call.file))
  let units : List PyScalar :=
    match api_call.units with
    | .scalar (.vstr s) => [.vstr s]
    | .vlist xs => xs
    | _ => []
  some
    { call_id := call_id
      timestamp := timestamp
      frequency := frequency
      talkgroup := talkgroup
      source := source
      duration := duration
      audio_url := audio_url
      audio_file_path := none
      system_name := pyOr api_call.system api_call.system_name
      department := pyOr api_call.department api_call.agency
      call_type := pyOr api_call.type api_call.call_type
      units := units
      metadata := some api_call
      processed := false
      created_at := now }

/-- Whether a PyVal is a Python string. -/
def isPyStr : PyVal → Bool
  | .scalar (.vstr _) => true
  | _ => false

/-- One row of the calls table: exactly the fourteen columns supplied by the
INSERT statements of insert_call_record and insert_call_records_batch. -/
structure DBRow where
  call_id : PyVal
  timestamp : Int
  frequency : Int
  talkgroup : Option String
  source : Option String
  duration : Int
  audio_url : PyVal
  audio_file_path : Option String
  system_name : PyVal
  department : PyVal
  call_type : PyVal
  units : List PyScalar
  metadata : Option RawCall
  processed : Bool
deriving DecidableEq, Repr

/-- Row built from a CallRecord by the INSERT column list (created_at is not
among the inserted columns; the server default fills it). -/
def mkRow (r : CallRecord) : DBRow :=
  { call_id := r.call_id
    timestamp := r.timestamp
    frequency := r.frequency
    talkgroup := r.talkgroup
    source := r.source
    duration := r.duration
    audio_url := r.audio_url
    audio_file_path := r.audio_file_path
    system_name := r.system_name
    department := r.department
    call_type := r.call_type
    units := r.units
    metadata := r.metadata
    processed := r.processed }

/-- DatabaseManager.insert_call_record: INSERT ... ON CONFLICT (call_id)
DO UPDATE SET sets every non-key inserted column to the EXCLUDED value, so a
conflicting row becomes mkRow r; otherwise the row is appended. -/
def insert_call_record (t : List DBRow) (r : CallRecord) : List DBRow :=
  if t.any (fun row => row.call_id = r.call_id) then
    t.map (fun row => if row.call_id = r.call_id then mkRow r else row)
  else
    t ++ [mkRow r]

/-- DatabaseManager.insert_call_records_batch: execute_values applies the same
ON CONFLICT upsert row by row; on success the function returns
len(call_records), and an empty list short-circuits to 0. -/
def insert_call_records_batch (t : List DBRow) (rs : List CallRecord) :
    List DBRow × Nat :=
  if rs.isEmpty then (t, 0)
  else (rs.foldl insert_call_record t, rs.length)

/-- DatabaseManager.mark_call_processed: UPDATE calls SET processed = TRUE
WHERE call_id = cid; the Bool is rows_updated > 0. -/
def mark_call_processed (t : List DBRow) (cid : PyVal) : List DBRow × Bool :=
  (t.map (fun row => if row.call_id = cid then { row with processed := true } else row),
   t.any (fun row => row.call_id = cid))

/-- A store operation on the calls table touching a call_id. -/
inductive StoreOp
  | upsert (r : CallRecord)
  | upsertBatch (rs : List CallRecord)
  | mark (cid : PyVal)

/-- Effect of one store operation on the table. -/
def applyOp (t : List DBRow) : StoreOp → List DBRow
  | .upsert r => insert_call_record t r
  | .upsertBatch rs => (insert_call_records_batch t rs).1
  | .mark cid => (mark_call_processed t cid).1

/-- Effect of a sequence of store operations on the table. -/
def applyOps (t : List DBRow) (ops : List StoreOp) : List DBRow :=
  ops.foldl applyOp t

/-- Stored row holding a call_id, if any (first match, as in a table unique
on call_id). -/
def rowOf : List DBRow → PyVal → Option DBRow
  | [], _ => none
  | row :: rest, cid => if row.call_id = cid then some row else rowOf rest cid

/-- Stored processed flag of the row holding a call_id, if any. -/
def procOf (t : List DBRow) (cid : PyVal) : Option Bool :=
  (rowOf t cid).map (fun row => row.processed)

/-- The call_id column of a table. -/
def rowIds (t : List DBRow) : List PyVal := t.map (fun row => row.call_id)

/-- Outcomes feeding SystemMonitor.perform_health_check: whether the database
probe raised, whether SELECT 1 returned a truthy row, whether
test_connection succeeded, and the two alert booleans read off the
check_disk_space and get_memory_usage dictionaries. -/
structure HealthInput where
  db_exc : Bool
  db_row : Bool
  api_ok : Bool
  disk_alert : Bool
  mem_alert : Bool
deriving DecidableEq, Repr

/-- Component and aggregate statuses reported by perform_health_check. -/
structure HealthReport where
  database_status : String
  api_status : String
  overall_status : String
deriving DecidableEq, Repr

/-- SystemMonitor.perform_health_check, following the source line by line:
overall_status starts healthy, becomes unhealthy in the database except
branch and on an API failure, and is assigned warning whenever the disk or
memory alert fires. -/
def perform_health_check (h : HealthInput) : HealthReport :=
  let overall := "healthy"
  let database_status :=
    if h.db_exc then "unhealthy" else if h.db_row then "healthy" else "unhealthy"
  let overall := if h.db_exc then "unhealthy" else overall
  let api_status := if h.api_ok then "healthy" else "unhealthy"
  let overall := if h.api_ok then overall else "unhealthy"
  let overall := if h.disk_alert then "warning" else overall
  let overall := if h.mem_alert then "warning" else overall
  { database_status := database_status, api_status := api_status,
    overall_status := overall }

/-- Inputs of one AudioProcessor.download_audio call: truthiness of the url,
whether the GET and raise_for_status succeed, the content-length header,
the configured max_file_size in bytes, the chunk sizes yielded by
iter_content, and whether the stream raises a RequestException after the
listed chunks. -/
structure DLInput where
  url_truthy : Bool
  http_ok : Bool
  content_length : Option Nat
  max_file_size : Int
  chunks : List Nat
  stream_error : Bool
deriving DecidableEq, Repr

/-- The streamed write loop of download_audio.  First component: the returned
value (some total bytes on success, none on failure).  Second component: the
bytes of the file left at the target path (none after the unlink of the
size-limit abort, none if never created). -/
def stream_chunks (max_file_size : Int) (stream_error : Bool) :
    Nat → List Nat → Option Nat × Option Nat
  | downloaded, [] =>
    if stream_error then (none, some downloaded) else (some downloaded, some downloaded)
  | downloaded, c :: cs =>
    if c = 0 then stream_chunks max_file_size stream_error downloaded cs
    else
      let d := downloaded + c
      if 0 < max_file_size ∧ max_file_size < (d : Int) then (none, none)
      else stream_chunks max_file_size stream_error d cs

/-- AudioProcessor.download_audio.  Returns (returned value, file on disk):
the guard on a falsy url, the RequestException path of the GET, the
content-length refusal (all three before the file is opened), then the
streamed write with its running size check. -/
def download_audio (inp : DLInput) : Option Nat × Option Nat :=
  if !inp.url_truthy then (none, none)
  else if !inp.http_ok then (none, none)
  else
    match inp.content_length with
    | some L =>
      if inp.max_file_size < (L : Int) then (none, none)
      else stream_chunks inp.max_file_size inp.stream_error 0 inp.chunks
    | none => stream_chunks inp.max_file_size inp.stream_error 0 inp.chunks

/-- Inputs of one AudioProcessor.process_audio call: existence of the input
file, its stem and extension (without the dot), the configured target format
(lowercased in the constructor), the two feature flags, and the outcome of
each externally-effectful stage: loading, normalization, gain control, the
export call, and whether the output path exists after the export attempt. -/
structure PAInput where
  input_exists : Bool
  input_stem : String
  input_suffix : String
  audio_format : String
  normalize_audio : Bool
  auto_gain_control : Bool
  load_ok : Bool
  normalize_ok : Bool
  agc_ok : Bool
  export_raises : Bool
  export_output_exists : Bool
deriving DecidableEq, Repr

/-- Result of process_audio: the returned path as (stem, extension) or none,
whether the input file is still on disk, and whether a converted file is on
disk at the with_suffix target path. -/
structure PAResult where
  result : Option (String × String)
  input_on_disk : Bool
  converted_on_disk : Bool
deriving DecidableEq, Repr

/-- The str.lower() applied to the file extension, modelled for ASCII. -/
def asciiLower (s : String) : String :=
  String.mk (s.data.map (fun c =>
    if c.isUpper then Char.ofNat (c.toNat + 32) else c))

/-- AudioProcessor.process_audio.  Any raising stage lands in the except
handler and returns none without touching the input file; in the conversion
branch the original is unlinked only when the exported path differs from the
input path and exists on disk. -/
def process_audio (inp : PAInput) : PAResult :=
  if !inp.input_exists then
    { result := none, input_on_disk := false, converted_on_disk := false }
  else if !inp.load_ok then
    { result := none, input_on_disk := true, converted_on_disk := false }
  else if inp.normalize_audio && !inp.normalize_ok then
    { result := none, input_on_disk := true, converted_on_disk := false }
  else if inp.auto_gain_control && !inp.agc_ok then
    { result := none, input_on_disk := true, converted_on_disk := false }
  else if inp.audio_format ≠ asciiLower inp.input_suffix then
    if inp.export_raises then
      { result := none, input_on_disk := true,
        converted_on_disk := inp.export_output_exists }
    else if inp.audio_format ≠ inp.input_suffix ∧ inp.export_output_exists then
      { result := some (inp.input_stem, inp.audio_format), input_on_disk := false,
        converted_on_disk := true }
    else
      { result := some (inp.input_stem, inp.audio_format), input_on_disk := true,
        converted_on_disk := inp.export_output_exists }
  else
    if inp.export_raises then
      { result := none, input_on_disk := true, converted_on_disk := false }
    else
      { result := some (inp.input_stem, inp.input_suffix), input_on_disk := true,
        converted_on_disk := false }

/-- AudioProcessor.cleanup_old_files over a directory listing of
(name, mtime in Unix seconds) pairs: retention_days at most 0 keeps
everything, otherwise every file strictly older than the cutoff
now - retention_days days is unlinked.  Returns (deleted count, surviving
files). -/
def cleanup_old_files (retention_days : Int) (now : Int)
    (files : List (String × Int)) : Nat × List (String × Int) :=
  if retention_days ≤ 0 then (0, files)
  else
    let cutoff := now - retention_days * 86400
    ((files.filter (fun f => decide (f.2 < cutoff))).length,
     files.filter (fun f => !decide (f.2 < cutoff)))

/-- RdioScannerMonitor._process_call_audio for one record: dl tells whether
download_audio returned a path, pr whether process_audio then returned a
path; only when both hold is mark_call_processed executed. -/
def process_call_audio (dl pr : CallRecord → Bool) (t : List DBRow)
    (r : CallRecord) : List DBRow :=
  if dl r then
    if pr r then (mark_call_processed t r.call_id).1 else t
  else t

/-- The per-record body of the audio loop of poll_and_process_calls: audio
processing happens only for a truthy audio_url. -/
def audio_step (dl pr : CallRecord → Bool) (tb : List DBRow)
    (r : CallRecord) : List DBRow :=
  if truthy r.audio_url then process_call_audio dl pr tb r else tb

/-- The records parsed out of one fetched batch: parse_call_record applied to
each raw call, dropping the ones that fail; uuids gives the fresh uuid drawn
for the record at each position. -/
def parse_batch (parseIso : String → Option Int) (now : Int)
    (uuids : Nat → String) (raws : List RawCall) : List CallRecord :=
  raws.enum.filterMap (fun p => parse_call_record parseIso now (uuids p.1) p.2)

/-- RdioScannerMonitor.poll_and_process_calls acting on the calls table:
early return on an empty fetch or an all-malformed batch, then the batch
upsert, then per-record audio processing for every record with a truthy
audio_url. -/
def poll_and_process_calls (parseIso : String → Option Int) (now : Int)
    (uuids : Nat → String) (dl pr : CallRecord → Bool)
    (t : List DBRow) (raws : List RawCall) : List DBRow :=
  if raws.isEmpty then t
  else
    let call_records := parse_batch parseIso now uuids raws
    if call_records.isEmpty then t
    else
      let t1 := (insert_call_records_batch t call_records).1
      call_records.foldl (audio_step dl pr) t1

/-- The row a record ends up as after one full poll cycle starting from an
empty table: the upserted row, marked processed when the record had a truthy
audio_url and both download and transcode succeeded. -/
def cycleRow (dl pr : CallRecord → Bool) (r : CallRecord) : DBRow :=
  if truthy r.audio_url && (dl r && pr r) then
    { mkRow r with processed := true }
  else mkRow r

lemma mkRow_call_id (r : CallRecord) : (mkRow r).call_id = r.call_id := rfl

lemma mkRow_processed (r : CallRecord) : (mkRow r).processed = r.processed := rfl

lemma cycleRow_call_id (dl pr : CallRecord → Bool) (r : CallRecord) :
    (cycleRow dl pr r).call_id = r.call_id := by
  unfold cycleRow; split <;> rfl

/-- rowOf commutes with a map that does not change call_id columns. -/
lemma rowOf_map (t : List DBRow) (f : DBRow → DBRow)
    (hf : ∀ row, (f row).call_id = row.call_id) (c : PyVal) :
    rowOf (t.map f) c = (rowOf t c).map f := by
  induction t with
  | nil => rfl
  | cons row rest ih =>
    by_cases hc : row.call_id = c
    · simp [rowOf, hf, hc]
    · simp [rowOf, hf, hc, ih]

lemma mark_row_call_id (cid : PyVal) (row : DBRow) :
    (if row.call_id = cid then { row with processed := true } else row).call_id
      = row.call_id := by
  split <;> rfl

/-- A stored true processed flag survives mark_call_processed. -/
lemma procOf_mark_of_true (t : List DBRow) (cid c : PyVal)
    (h : procOf t c = some true) :
    procOf (mark_call_processed t cid).1 c = some true := by
  unfold procOf at h ⊢
  unfold mark_call_processed
  rw [rowOf_map t _ (mark_row_call_id cid) c]
  obtain ⟨row, hrow, hp⟩ : ∃ row, rowOf t c = some row ∧ row.processed = true := by
    cases hr : rowOf t c with
    | none => rw [hr] at h; simp at h
    | some row => rw [hr] at h; exact ⟨row, rfl, by simpa using h⟩
  rw [hrow]
  simp only [Option.map_some']
  split <;> simp [hp]

/-- After an upsert, the row stored under the call_id of the upserted record
is exactly the row built from that record. -/
lemma rowOf_insert_self (t : List DBRow) (r : CallRecord) :
    rowOf (insert_call_record t r) r.call_id = some (mkRow r) := by
  unfold insert_call_record
  split
  · rename_i hany
    induction t with
    | nil => simp at hany
    | cons row rest ih =>
      by_cases hc : row.call_id = r.call_id
      · simp [rowOf, hc, mkRow_call_id]
      · have hrest : rest.any (fun row => row.call_id = r.call_id) = true := by
          simp only [List.any_cons, hc] at hany
          simpa using hany
        simp [rowOf, hc, ih hrest]
  · rename_i hany
    induction t with
    | nil => simp [rowOf, mkRow_call_id]
    | cons row rest ih =>
      have hc : ¬ row.call_id = r.call_id := by
        intro hEq
        simp [List.any_cons, hEq] at hany
      have hrest : ¬ rest.any (fun row => row.call_id = r.call_id) = true := by
        intro hr
        simp [List.any_cons, hr] at hany
      simp [rowOf, hc, ih hrest]

/-- The table invariant installed by the UNIQUE constraint on call_id. -/
def NoDupIds (t : List DBRow) : Prop :=
  List.Pairwise (fun a b : DBRow => a.call_id ≠ b.call_id) t

/-- The call_id of an upserted record is present afterwards. -/
lemma any_insert_self (t : List DBRow) (r : CallRecord) :
    (insert_call_record t r).any (fun row => row.call_id = r.call_id) = true := by
  unfold insert_call_record
  split
  · rename_i hany
    rw [List.any_eq_true] at hany ⊢
    obtain ⟨row, hmem, hrow⟩ := hany
    refine ⟨mkRow r, List.mem_map.mpr ⟨row, hmem, ?_⟩, by simp [mkRow_call_id]⟩
    simp only [decide_eq_true_eq] at hrow
    simp [hrow]
  · rw [List.any_eq_true]
    exact ⟨mkRow r, by simp, by simp [mkRow_call_id]⟩

/-- Upserting an already-present call_id does not change the row count. -/
lemma insert_length_of_present (t : List DBRow) (r : CallRecord)
    (h : t.any (fun row => row.call_id = r.call_id) = true) :
    (insert_call_record t r).length = t.length := by
  unfold insert_call_record
  rw [if_pos h, List.length_map]

/-- The upsert preserves uniqueness of call_id. -/
lemma insert_nodup (t : List DBRow) (r : CallRecord) (hn : NoDupIds t) :
    NoDupIds (insert_call_record t r) := by
  unfold insert_call_record
  split
  · rename_i hany
    refine List.Pairwise.map _ ?_ hn
    intro a b hab
    by_cases ha : a.call_id = r.call_id <;> by_cases hb : b.call_id = r.call_id <;>
      simp [ha, hb, mkRow_call_id] at hab ⊢ <;> first
        | exact fun hEq => hab (ha.trans hEq.symm)
        | exact fun hEq => hab (hEq.trans hb.symm)
        | exact hab
  · rename_i hany
    rw [NoDupIds, List.pairwise_append]
    refine ⟨hn, by simp, ?_⟩
    intro a hmem b hb
    simp only [List.mem_singleton] at hb
    subst hb
    rw [mkRow_call_id]
    intro hEq
    rw [List.any_eq_true] at hany
    exact hany ⟨a, hmem, by simp [hEq]⟩

/-- In a table unique on call_id, a present call_id occupies exactly one
row. -/
lemma filter_length_one_of_present (t : List DBRow) (c : PyVal)
    (hn : NoDupIds t) (h : t.any (fun row => row.call_id = c) = true) :
    (t.filter (fun row => row.call_id = c)).length = 1 := by
  induction t with
  | nil => simp at h
  | cons row rest ih =>
    rw [NoDupIds, List.pairwise_cons] at hn
    by_cases hc : row.call_id = c
    · have hnone : rest.filter (fun row => row.call_id = c) = [] := by
        rw [List.filter_eq_nil_iff]
        intro a ha
        simp only [decide_eq_true_eq]
        intro hEq
        exact hn.1 a ha (hc.trans hEq.symm)
      simp [List.filter_cons, hc, hnone]
    · have hrest : rest.any (fun row => row.call_id = c) = true := by
        simp only [List.any_cons, hc] at h
        simpa using h
      simp only [List.filter_cons, decide_eq_true_eq]
      rw [if_neg hc]
      exact ih hn.2 hrest

/-- rowIds of a map that does not change call_id columns. -/
lemma filter_id_length_map (t : List DBRow) (f : DBRow → DBRow)
    (hf : ∀ row, (f row).call_id = row.call_id) (c : PyVal) :
    ((t.map f).filter (fun row => row.call_id = c)).length
      = (t.filter (fun row => row.call_id = c)).length := by
  induction t with
  | nil => rfl
  | cons row rest ih =>
    by_cases hc : row.call_id = c <;>
      simp [List.filter_cons, hf, hc, ih]

lemma rowOf_mem (t : List DBRow) (c : PyVal) (row : DBRow)
    (h : rowOf t c = some row) : row ∈ t := by
  induction t with
  | nil => simp [rowOf] at h
  | cons row2 rest ih =>
    by_cases hc : row2.call_id = c
    · simp [rowOf, hc] at h
      simp [h]
    · simp only [rowOf, if_neg hc] at h
      exact List.mem_cons_of_mem row2 (ih h)

lemma insert_map_call_id (r : CallRecord) (row : DBRow) :
    (if row.call_id = r.call_id then mkRow r else row).call_id = row.call_id := by
  split
  · rename_i hEq
    rw [mkRow_call_id, hEq]
  · rfl

/-- Marking a call_id that occurs nowhere in a table leaves it unchanged. -/
lemma mark_map_noop (l : List DBRow) (cid : PyVal)
    (h : l.any (fun row => row.call_id = cid) = false) :
    l.map (fun row => if row.call_id = cid then { row with processed := true } else row)
      = l := by
  induction l with
  | nil => rfl
  | cons row rest ih =>
    have hc : ¬ row.call_id = cid := by
      intro hEq
      simp [List.any_cons, hEq] at h
    have hrest : rest.any (fun row => row.call_id = cid) = false := by
      cases hr : rest.any (fun row => row.call_id = cid)
      · rfl
      · rw [List.any_cons, hr, Bool.or_true] at h
        exact absurd h (by simp)
    simp [hc, ih hrest]

/-- Effect of one audio step on a table where the call_id of the record sits
in exactly the designated middle row. -/
lemma audio_step_fresh (dl pr : CallRecord → Bool) (pre : List DBRow)
    (r : CallRecord) (post : List DBRow)
    (hpre : pre.any (fun row => row.call_id = r.call_id) = false)
    (hpost : post.any (fun row => row.call_id = r.call_id) = false) :
    audio_step dl pr (pre ++ mkRow r :: post) r
      = pre ++ cycleRow dl pr r :: post := by
  unfold audio_step process_call_audio cycleRow
  by_cases ha : truthy r.audio_url
  · by_cases hdl : dl r
    · by_cases hpr : pr r
      · simp only [ha, hdl, hpr, if_true, Bool.and_true, Bool.true_and, if_pos]
        unfold mark_call_processed
        simp only [List.map_append, List.map_cons]
        rw [mark_map_noop pre r.call_id hpre, mark_map_noop post r.call_id hpost,
          if_pos (mkRow_call_id r)]
      · simp [ha, hdl, hpr]
    · simp [ha, hdl]
  · simp [ha]

/-- Batch upsert of records with fresh, pairwise distinct call_ids appends
their rows in order. -/
lemma batch_insert_fresh (rs : List CallRecord) :
    ∀ t : List DBRow,
      (∀ r ∈ rs, t.any (fun row => row.call_id = r.call_id) = false) →
      List.Pairwise (fun a b : CallRecord => a.call_id ≠ b.call_id) rs →
      rs.foldl insert_call_record t = t ++ rs.map mkRow := by
  induction rs with
  | nil => intro t _ _; simp
  | cons r rest ih =>
    intro t hd hn
    obtain ⟨hhead, htail⟩ := List.pairwise_cons.mp hn
    have h1 : t.any (fun row => row.call_id = r.call_id) = false :=
      hd r (List.mem_cons_self r rest)
    have step : insert_call_record t r = t ++ [mkRow r] := by
      unfold insert_call_record
      rw [if_neg (by simp [h1])]
    have hd2 : ∀ r2 ∈ rest,
        (t ++ [mkRow r]).any (fun row => row.call_id = r2.call_id) = false := by
      intro r2 hr2
      have h2 := hd r2 (List.mem_cons_of_mem r hr2)
      rw [List.any_append, h2]
      have hne : r.call_id ≠ r2.call_id := hhead r2 hr2
      simp [mkRow_call_id, hne]
    rw [List.foldl_cons, step, ih (t ++ [mkRow r]) hd2 htail]
    simp

/-- The audio loop over records with fresh, pairwise distinct call_ids marks
each appended row independently. -/
lemma audio_fold_fresh (dl pr : CallRecord → Bool) (rs : List CallRecord) :
    ∀ pre : List DBRow,
      (∀ r ∈ rs, pre.any (fun row => row.call_id = r.call_id) = false) →
      List.Pairwise (fun a b : CallRecord => a.call_id ≠ b.call_id) rs →
      rs.foldl (audio_step dl pr) (pre ++ rs.map mkRow)
        = pre ++ rs.map (cycleRow dl pr) := by
  induction rs with
  | nil => intro pre _ _; simp
  | cons r rest ih =>
    intro pre hd hn
    obtain ⟨hhead, htail⟩ := List.pairwise_cons.mp hn
    have hpre : pre.any (fun row => row.call_id = r.call_id) = false :=
      hd r (List.mem_cons_self r rest)
    have hpost : (rest.map mkRow).any (fun row => row.call_id = r.call_id) = false := by
      rw [List.any_eq_false]
      intro row hrow
      obtain ⟨r2, hr2, hEq⟩ := List.mem_map.mp hrow
      subst hEq
      rw [mkRow_call_id]
      simp only [decide_eq_true_eq]
      intro hEq2
      exact hhead r2 hr2 hEq2.symm
    have hd2 : ∀ r2 ∈ rest,
        (pre ++ [cycleRow dl pr r]).any (fun row => row.call_id = r2.call_id) = false := by
      intro r2 hr2
      rw [List.any_append, hd r2 (List.mem_cons_of_mem r hr2)]
      have hne : r.call_id ≠ r2.call_id := hhead r2 hr2
      simp [cycleRow_call_id, hne]
    rw [List.map_cons, List.foldl_cons, audio_step_fresh dl pr pre r (rest.map mkRow) hpre hpost]
    have hassoc : pre ++ cycleRow dl pr r :: rest.map mkRow
        = (pre ++ [cycleRow dl pr r]) ++ rest.map mkRow := by simp
    rw [hassoc, ih (pre ++ [cycleRow dl pr r]) hd2 htail]
    simp

/-- One poll cycle from an empty table: each parsed record ends up as its
cycleRow, in order. -/
lemma cycle_from_empty (parseIso : String → Option Int) (now : Int)
    (uuids : Nat → String) (dl pr : CallRecord → Bool) (raws : List RawCall)
    (hn : List.Pairwise (fun a b : CallRecord => a.call_id ≠ b.call_id)
      (parse_batch parseIso now uuids raws)) :
    poll_and_process_calls parseIso now uuids dl pr [] raws
      = (parse_batch parseIso now uuids raws).map (cycleRow dl pr) := by
  simp only [poll_and_process_calls]
  by_cases h0 : raws.isEmpty = true
  · have h0e : raws = [] := List.isEmpty_iff.mp h0
    subst h0e
    simp [parse_batch]
  · rw [if_neg h0]
    by_cases h1 : (parse_batch parseIso now uuids raws).isEmpty = true
    · have h1e : parse_batch parseIso now uuids raws = [] := List.isEmpty_iff.mp h1
      rw [if_pos (by rw [h1e]; rfl)]
      rw [h1e]
      rfl
    · rw [if_neg h1]
      have hfold : (insert_call_records_batch [] (parse_batch parseIso now uuids raws)).1
          = (parse_batch parseIso now uuids raws).foldl insert_call_record [] := by
        unfold insert_call_records_batch
        rw [if_neg h1]
      rw [hfold, batch_insert_fresh (parse_batch parseIso now uuids raws) []
        (fun r _ => rfl) hn]
      rw [audio_fold_fresh dl pr (parse_batch parseIso now uuids raws) []
        (fun r _ => rfl) hn]
      simp

/-- Every record produced by parse_call_record carries processed = false and
the call_id taken from the id / call_id aliases (or the fresh uuid). -/
lemma parse_fields (parseIso : String → Option Int) (now : Int) (u : String)
    (raw : RawCall) (r : CallRecord)
    (h : parse_call_record parseIso now u raw = some r) :
    r.processed = false
    ∧ r.call_id = pyOr raw.id (pyOr raw.call_id (.scalar (.vstr u))) := by
  unfold parse_call_record at h
  cases hf : (if truthy raw.frequency then pyFloat raw.frequency else some 0) with
  | none => rw [hf] at h; simp at h
  | some fv =>
    cases hd : (if truthy raw.duration then pyFloat raw.duration else some 0) with
    | none => rw [hf, hd] at h; simp at h
    | some dv =>
      rw [hf, hd] at h
      injection h with h2
      rw [← h2]
      exact ⟨rfl, rfl⟩

/-- Length accounting for filterMap: parsed plus failed is the batch size. -/
lemma length_filterMap_add_none {α β : Type} (f : α → Option β) (l : List α) :
    (l.filterMap f).length + (l.filter (fun a => (f a).isNone)).length
      = l.length := by
  induction l with
  | nil => rfl
  | cons a rest ih =>
    cases hf : f a with
    | none =>
      simp only [List.filterMap_cons, List.filter_cons, hf, Option.isNone_none,
        if_true, List.length_cons]
      omega
    | some b =>
      simp only [List.filterMap_cons, List.filter_cons, hf, Option.isNone_some,
        Bool.false_eq_true, if_false, List.length_cons]
      omega

lemma exists_id_insert_self (t : List DBRow) (r : CallRecord) :
    ∃ row ∈ insert_call_record t r, row.call_id = r.call_id :=
  ⟨mkRow r, rowOf_mem _ _ _ (rowOf_insert_self t r), mkRow_call_id r⟩

lemma exists_id_insert_mono (t : List DBRow) (r : CallRecord) (c : PyVal)
    (h : ∃ row ∈ t, row.call_id = c) :
    ∃ row ∈ insert_call_record t r, row.call_id = c := by
  obtain ⟨row, hmem, hid⟩ := h
  unfold insert_call_record
  split
  · exact ⟨_, List.mem_map_of_mem _ hmem, by rw [insert_map_call_id]; exact hid⟩
  · exact ⟨row, List.mem_append_left _ hmem, hid⟩

lemma exists_id_batch_mono (rs : List CallRecord) :
    ∀ t c, (∃ row ∈ t, row.call_id = c) →
      ∃ row ∈ rs.foldl insert_call_record t, row.call_id = c := by
  induction rs with
  | nil => intro t c h; simpa using h
  | cons r rest ih =>
    intro t c h
    rw [List.foldl_cons]
    exact ih _ c (exists_id_insert_mono t r c h)

lemma exists_id_batch (rs : List CallRecord) :
    ∀ t, ∀ r ∈ rs, ∃ row ∈ rs.foldl insert_call_record t, row.call_id = r.call_id := by
  induction rs with
  | nil => intro t r h; simp at h
  | cons r2 rest ih =>
    intro t r hr
    rw [List.foldl_cons]
    rcases List.mem_cons.mp hr with hEq | hmem
    · subst hEq
      exact exists_id_batch_mono rest _ _ (exists_id_insert_self t r)
    · exact ih _ r hmem

lemma exists_id_audio_step (dl pr : CallRecord → Bool) (tb : List DBRow)
    (r : CallRecord) (c : PyVal) (h : ∃ row ∈ tb, row.call_id = c) :
    ∃ row ∈ audio_step dl pr tb r, row.call_id = c := by
  obtain ⟨row, hmem, hid⟩ := h
  unfold audio_step process_call_audio mark_call_processed
  split
  · split
    · split
      · exact ⟨_, List.mem_map_of_mem _ hmem, by rw [mark_row_call_id]; exact hid⟩
      · exact ⟨row, hmem, hid⟩
    · exact ⟨row, hmem, hid⟩
  · exact ⟨row, hmem, hid⟩

lemma exists_id_audio_fold (dl pr : CallRecord → Bool) (rs : List CallRecord) :
    ∀ tb c, (∃ row ∈ tb, row.call_id = c) →
      ∃ row ∈ rs.foldl (audio_step dl pr) tb, row.call_id = c := by
  induction rs with
  | nil => intro tb c h; simpa using h
  | cons r rest ih =>
    intro tb c h
    rw [List.foldl_cons]
    exact ih _ c (exists_id_audio_step dl pr tb r c h)

/-- If the total of the remaining chunks drives the running count over a
positive limit, the streamed write aborts and unlinks the file. -/
lemma stream_abort (max_file_size : Int) (stream_error : Bool) (cs : List Nat) :
    ∀ d : Nat, 0 < max_file_size → (d : Int) ≤ max_file_size →
      max_file_size < ((d + cs.sum : Nat) : Int) →
      stream_chunks max_file_size stream_error d cs = (none, none) := by
  induction cs with
  | nil =>
    intro d hpos hle hgt
    simp only [List.sum_nil, Nat.add_zero] at hgt
    omega
  | cons c rest ih =>
    intro d hpos hle hgt
    by_cases hc : c = 0
    · subst hc
      simp only [stream_chunks, if_pos rfl]
      apply ih d hpos hle
      simpa using hgt
    · simp only [stream_chunks, if_neg hc]
      by_cases habort : 0 < max_file_size ∧ max_file_size < ((d + c : Nat) : Int)
      · rw [if_pos habort]
      · rw [if_neg habort]
        push_neg at habort
        have hle2 : ((d + c : Nat) : Int) ≤ max_file_size := habort hpos
        apply ih (d + c) hpos hle2
        rw [List.sum_cons] at hgt
        push_cast at hgt ⊢
        omega

/-- A stream that raises after all its chunks leaves the partial file with
the full running total on disk, provided the size limit never fired. -/
lemma stream_err_run (max_file_size : Int) (cs : List Nat) :
    ∀ d : Nat,
      (max_file_size ≤ 0 ∨ ((d + cs.sum : Nat) : Int) ≤ max_file_size) →
      stream_chunks max_file_size true d cs = (none, some (d + cs.sum)) := by
  induction cs with
  | nil => intro d _; simp [stream_chunks]
  | cons c rest ih =>
    intro d h
    by_cases hc : c = 0
    · subst hc
      simp only [stream_chunks, if_pos rfl]
      have := ih d (by simpa using h)
      rw [this]
      simp
    · simp only [stream_chunks, if_neg hc]
      have hno : ¬ (0 < max_file_size ∧ max_file_size < ((d + c : Nat) : Int)) := by
        rcases h with h | h
        · rintro ⟨h1, _⟩; omega
        · rintro ⟨h1, h2⟩
          have hnn : (0 : Int) ≤ (rest.sum : Int) := by exact_mod_cast Nat.zero_le _
          rw [List.sum_cons] at h
          push_cast at h h2 hnn
          omega
      rw [if_neg hno]
      have harg : max_file_size ≤ 0 ∨ (((d + c) + rest.sum : Nat) : Int) ≤ max_file_size := by
        rcases h with h | h
        · exact Or.inl h
        · right
          rw [List.sum_cons] at h
          push_cast at h ⊢
          omega
      rw [ih (d + c) harg]
      simp [List.sum_cons, Nat.add_assoc]

/-- A concrete unprocessed record used by counterexamples and witnesses. -/
def sampleRecord : CallRecord :=
  { call_id := .scalar (.vstr "A1"), timestamp := 1700000000,
    frequency := 851000000, talkgroup := some "55", source := none,
    duration := 5, audio_url := .scalar (.vstr "http://x/a.wav"),
    audio_file_path := none, system_name := .scalar .vnone,
    department := .scalar .vnone, call_type := .scalar .vnone, units := [],
    metadata := none, processed := false, created_at := 1700000000 }

/-- The same logical call delivered again with changed fields. -/
def sampleRecordLater : CallRecord :=
  { sampleRecord with talkgroup := some "66", duration := 7 }

/-- A row whose processed flag is already true. -/
def sampleProcessedRow : DBRow := { mkRow sampleRecord with processed := true }

/-- Claim C1 counterexample: upsert the record, mark it processed (flag
becomes true), then re-upsert the same record, whose processed field is
false; the stored flag reverts to false because ON CONFLICT DO UPDATE sets
processed to the EXCLUDED value.  The claim says the flag would stay true. -/
theorem C1_counterexample :
    procOf (applyOps [] [.upsert sampleRecord, .mark (.scalar (.vstr "A1"))])
        (.scalar (.vstr "A1")) = some true
    ∧ procOf (applyOps []
        [.upsert sampleRecord, .mark (.scalar (.vstr "A1")), .upsert sampleRecord])
        (.scalar (.vstr "A1")) = some false := by
  constructor <;> rfl

/-- Claim C1 (amended): processed never transitions true to false under
mark_call_processed operations alone; but insert_call_record and
insert_call_records_batch overwrite processed with the incoming record
value, so re-upserting an already-processed call_id with a record whose
processed field is false resets the stored flag to false. -/
theorem C1_processed_follows_last_write (t : List DBRow) (cid c : PyVal)
    (r : CallRecord) (h : procOf t c = some true) :
    procOf (applyOp t (.mark cid)) c = some true
    ∧ procOf (applyOp t (.upsert r)) r.call_id = some r.processed
    ∧ procOf (applyOp t (.upsertBatch [r])) r.call_id = some r.processed := by
  refine ⟨procOf_mark_of_true t cid c h, ?_, ?_⟩
  · show procOf (insert_call_record t r) r.call_id = some r.processed
    unfold procOf
    rw [rowOf_insert_self]
    rfl
  · show procOf (insert_call_record t r) r.call_id = some r.processed
    unfold procOf
    rw [rowOf_insert_self]
    rfl

theorem C1_witness :
    procOf (applyOp [sampleProcessedRow] (.mark (.scalar (.vstr "Z"))))
        (.scalar (.vstr "A1")) = some true
    ∧ procOf (applyOp [sampleProcessedRow] (.upsert sampleRecord))
        sampleRecord.call_id = some sampleRecord.processed := by
  have h := C1_processed_follows_last_write [sampleProcessedRow]
    (.scalar (.vstr "Z")) (.scalar (.vstr "A1")) sampleRecord rfl
  exact ⟨h.1, h.2.1⟩

/-- Claim C2 (code bug evidence): when the database probe raises (component
unhealthy) and the disk-space alert also fires, perform_health_check reports
overall_status warning, not unhealthy: the later warning assignment
overwrites the earlier unhealthy escalation, so unhealthy does not dominate
warning as the claim requires. -/
theorem C2_warning_overrides_unhealthy :
    (perform_health_check
        { db_exc := true, db_row := false, api_ok := true,
          disk_alert := true, mem_alert := false }).database_status = "unhealthy"
    ∧ (perform_health_check
        { db_exc := true, db_row := false, api_ok := true,
          disk_alert := true, mem_alert := false }).overall_status = "warning"
    ∧ "warning" ≠ "unhealthy" := by
  refine ⟨rfl, rfl, by decide⟩

/-- Claim C4: a Content-Length declaring more than max_file_size makes
download_audio return none with no file on disk; and with a positive
configured maximum, a chunk total exceeding the maximum triggers the
mid-transfer abort, which unlinks the partial file, again leaving none and
no file. -/
theorem C4_size_guard_no_artifact (inp : DLInput) :
    (∀ L, inp.content_length = some L → inp.max_file_size < (L : Int) →
        download_audio inp = (none, none))
    ∧ (0 < inp.max_file_size → inp.max_file_size < ((inp.chunks.sum : Nat) : Int) →
        download_audio inp = (none, none)) := by
  constructor
  · intro L hcl hgt
    unfold download_audio
    by_cases hu : inp.url_truthy <;> by_cases hh : inp.http_ok <;>
      simp [hu, hh, hcl, hgt]
  · intro hpos hgt
    unfold download_audio
    by_cases hu : inp.url_truthy
    · by_cases hh : inp.http_ok
      · have habort : stream_chunks inp.max_file_size inp.stream_error 0 inp.chunks
            = (none, none) :=
          stream_abort inp.max_file_size inp.stream_error inp.chunks 0 hpos
            (le_of_lt hpos) (by simpa using hgt)
        cases hcl : inp.content_length with
        | none => simp [hu, hh, habort]
        | some L =>
          by_cases hL : inp.max_file_size < (L : Int)
          · simp [hu, hh, hL]
          · simp [hu, hh, hL, habort]
      · simp [hu, hh]
    · simp [hu]

/-- A download advertising 2 MB against a 1 MB limit, and the same transfer
without the header, where the chunk total exceeds the limit mid-stream. -/
def dlOversized : DLInput :=
  { url_truthy := true, http_ok := true, content_length := some 2000000,
    max_file_size := 1000000, chunks := [800000, 800000], stream_error := false }

theorem C4_witness :
    download_audio dlOversized = (none, none)
    ∧ download_audio { dlOversized with content_length := none } = (none, none) := by
  constructor
  · exact (C4_size_guard_no_artifact dlOversized).1 2000000 rfl (by decide)
  · exact (C4_size_guard_no_artifact
      { dlOversized with content_length := none }).2 (by decide) (by decide)

/-- Claim C5: process_audio is atomic on failure (any raising stage returns
none and leaves the input file on disk) and in the format-conversion branch
the input file is deleted only when the converted output file exists. -/
theorem C5_failure_preserves_original (inp : PAInput) :
    ((process_audio inp).result = none → inp.input_exists = true →
        (process_audio inp).input_on_disk = true)
    ∧ (inp.input_exists = true → (process_audio inp).input_on_disk = false →
        (process_audio inp).converted_on_disk = true) := by
  constructor
  · intro hres hex
    unfold process_audio at hres ⊢
    split_ifs at hres ⊢ <;> simp_all
  · intro hex hdel
    unfold process_audio at hdel ⊢
    split_ifs at hdel ⊢ <;> simp_all

/-- An input whose decode stage raises. -/
def paLoadFail : PAInput :=
  { input_exists := true, input_stem := "A1_20240101", input_suffix := "wav",
    audio_format := "mp3", normalize_audio := true, auto_gain_control := true,
    load_ok := false, normalize_ok := true, agc_ok := true,
    export_raises := false, export_output_exists := true }

/-- A successful conversion that deletes the original. -/
def paConverted : PAInput :=
  { paLoadFail with load_ok := true, normalize_ok := true, agc_ok := true }

theorem C5_witness :
    ((process_audio paLoadFail).result = none
      ∧ (process_audio paLoadFail).input_on_disk = true)
    ∧ ((process_audio paConverted).input_on_disk = false
      ∧ (process_audio paConverted).converted_on_disk = true) := by
  refine ⟨⟨rfl, (C5_failure_preserves_original paLoadFail).1 rfl rfl⟩,
    ⟨by decide, (C5_failure_preserves_original paConverted).2 rfl (by decide)⟩⟩

/-- A raw API record whose identifier is numeric. -/
def rawNumericId : RawCall := { id := .scalar (.vint 123) }

/-- Claim C9 (code bug evidence): parse_call_record stores a numeric source
id verbatim (unlike talkgroup and source, which pass through str()), so the
resulting call_id is the integer 123 and not a string, contradicting the
call_id annotation of the CallRecord dataclass and the claim. -/
theorem C9_numeric_id_not_string :
    ((parse_call_record (fun _ => none) 0 "generated-uuid" rawNumericId).map
        (fun r => r.call_id)) = some (.scalar (.vint 123))
    ∧ isPyStr (.scalar (.vint 123)) = false :=
  ⟨rfl, rfl⟩

/-- Claim C10: a RequestException raised mid-stream (after the file was
opened and the listed chunks were written, with the size limit never
triggering) makes download_audio return none while the partial file stays on
disk with all written bytes, unlike the size-limit abort path. -/
theorem C10_stream_error_file_remains (inp : DLInput)
    (hu : inp.url_truthy = true) (hh : inp.http_ok = true)
    (hcl : ∀ L, inp.content_length = some L → (L : Int) ≤ inp.max_file_size)
    (herr : inp.stream_error = true)
    (hsz : inp.max_file_size ≤ 0 ∨ ((inp.chunks.sum : Nat) : Int) ≤ inp.max_file_size) :
    download_audio inp = (none, some inp.chunks.sum) := by
  unfold download_audio
  have hrun : stream_chunks inp.max_file_size true 0 inp.chunks
      = (none, some inp.chunks.sum) := by
    have := stream_err_run inp.max_file_size inp.chunks 0 (by simpa using hsz)
    simpa using this
  cases hcl2 : inp.content_length with
  | none => simp [hu, hh, herr, hrun]
  | some L =>
    have hle := hcl L hcl2
    simp [hu, hh, herr, hrun, not_lt.mpr hle]

/-- A 1 MB limit, two 8 KB chunks, then a connection error. -/
def dlInterrupted : DLInput :=
  { url_truthy := true, http_ok := true, content_length := none,
    max_file_size := 1000000, chunks := [8192, 8192], stream_error := true }

theorem C10_witness :
    download_audio dlInterrupted = (none, some dlInterrupted.chunks.sum) :=
  C10_stream_error_file_remains dlInterrupted rfl rfl
    (by intro L hL; simp [dlInterrupted] at hL) rfl (by right; decide)

/-- A raw call carrying no audio url under any alias. -/
def rawNoAudio : RawCall :=
  { id := .scalar (.vstr "A1"), timestamp := .scalar (.vint 1700000000) }

/-- A raw call carrying an audio url. -/
def rawWithAudio : RawCall :=
  { id := .scalar (.vstr "B2"), timestamp := .scalar (.vint 1700000100),
    audio_url := .scalar (.vstr "http://x/b.wav") }

/-- A raw call whose frequency field makes float() raise. -/
def rawMalformed : RawCall := { frequency := .scalar (.vstr "oops") }

/-- Claim C3 counterexample: one ingestion cycle over a single record with
no audio_url, with every audio outcome successful, leaves the stored
processed flag false: the cycle never marks records without audio processed,
while the claim says the flag is set to true immediately. -/
theorem C3_counterexample :
    procOf (poll_and_process_calls (fun _ => none) 0 (fun _ => "u")
        (fun _ => true) (fun _ => true) [] [rawNoAudio]) (.scalar (.vstr "A1"))
      = some false
    ∧ ¬ procOf (poll_and_process_calls (fun _ => none) 0 (fun _ => "u")
        (fun _ => true) (fun _ => true) [] [rawNoAudio]) (.scalar (.vstr "A1"))
      = some true := by
  constructor
  · rfl
  · decide

/-- Claim C3 (amended): in one ingestion cycle from an empty table, a record
with no audio_url is stored with processed = false and never marked; a
record with an audio_url ends with processed = true exactly when both
download and transcode succeed.  Formally the cycle sends each parsed record
to its cycleRow, whose processed flag is the conjunction of a truthy
audio_url with the download and transcode outcomes. -/
theorem C3_processed_only_after_audio_success (parseIso : String → Option Int)
    (now : Int) (uuids : Nat → String) (dl pr : CallRecord → Bool)
    (raws : List RawCall)
    (hn : List.Pairwise (fun a b : CallRecord => a.call_id ≠ b.call_id)
      (parse_batch parseIso now uuids raws)) :
    poll_and_process_calls parseIso now uuids dl pr [] raws
      = (parse_batch parseIso now uuids raws).map (cycleRow dl pr)
    ∧ ∀ r ∈ parse_batch parseIso now uuids raws,
        (cycleRow dl pr r).processed = (truthy r.audio_url && (dl r && pr r)) := by
  refine ⟨cycle_from_empty parseIso now uuids dl pr raws hn, ?_⟩
  intro r hr
  obtain ⟨p, hp, hparse⟩ := List.mem_filterMap.mp hr
  have hproc : r.processed = false :=
    (parse_fields parseIso now (uuids p.1) p.2 r hparse).1
  unfold cycleRow
  split
  · rename_i hcond
    simp [hcond]
  · rename_i hcond
    rw [mkRow_processed, hproc]
    simp only [Bool.not_eq_true] at hcond
    exact hcond.symm

/-- The two well-formed raw calls of the demonstration batch. -/
def demoRawsAudio : List RawCall := [rawNoAudio, rawWithAudio]

theorem C3_witness :
    poll_and_process_calls (fun _ => none) 0 (fun _ => "u")
        (fun _ => true) (fun _ => true) [] demoRawsAudio
      = (parse_batch (fun _ => none) 0 (fun _ => "u") demoRawsAudio).map
          (cycleRow (fun _ => true) (fun _ => true)) :=
  (C3_processed_only_after_audio_success (fun _ => none) 0 (fun _ => "u")
    (fun _ => true) (fun _ => true) demoRawsAudio (by decide)).1

/-- Upserting an already-present call_id leaves exactly one row under it. -/
lemma filter_length_insert_one (t : List DBRow) (r : CallRecord)
    (hn : NoDupIds t) (hany : t.any (fun row => row.call_id = r.call_id) = true) :
    ((insert_call_record t r).filter
        (fun row => row.call_id = r.call_id)).length = 1 := by
  unfold insert_call_record
  rw [if_pos hany,
    filter_id_length_map _ _ (insert_map_call_id r) r.call_id]
  exact filter_length_one_of_present _ _ hn hany

/-- Claim C6: on a table unique on call_id, upserting a record and then a
second record with the same call_id leaves exactly one row under that
call_id, holding exactly the later record values, and the second upsert does
not change the row count. -/
theorem C6_upsert_idempotent (t : List DBRow) (rFirst rSecond : CallRecord)
    (hid : rFirst.call_id = rSecond.call_id) (hn : NoDupIds t) :
    ((insert_call_record (insert_call_record t rFirst) rSecond).filter
        (fun row => row.call_id = rSecond.call_id)).length = 1
    ∧ rowOf (insert_call_record (insert_call_record t rFirst) rSecond)
        rSecond.call_id = some (mkRow rSecond)
    ∧ (insert_call_record (insert_call_record t rFirst) rSecond).length
        = (insert_call_record t rFirst).length := by
  have hn1 : NoDupIds (insert_call_record t rFirst) := insert_nodup t rFirst hn
  have hany : (insert_call_record t rFirst).any
      (fun row => row.call_id = rSecond.call_id) = true := by
    have h := any_insert_self t rFirst
    rw [hid] at h
    exact h
  exact ⟨filter_length_insert_one _ rSecond hn1 hany, rowOf_insert_self _ rSecond,
    insert_length_of_present _ rSecond hany⟩

theorem C6_witness :
    ((insert_call_record (insert_call_record [] sampleRecord) sampleRecordLater).filter
        (fun row => row.call_id = sampleRecordLater.call_id)).length = 1
    ∧ rowOf (insert_call_record (insert_call_record [] sampleRecord) sampleRecordLater)
        sampleRecordLater.call_id = some (mkRow sampleRecordLater) := by
  have h := C6_upsert_idempotent [] sampleRecord sampleRecordLater rfl
    List.Pairwise.nil
  exact ⟨h.1, h.2.1⟩

/-- Claim C7: when exactly one raw record of a fetched batch fails to parse,
the cycle parses the other N-1 records, the batch insert reports N-1 stored
records, and every parsed record has a row under its call_id in the table
after the cycle. -/
theorem C7_batch_resilience (parseIso : String → Option Int) (now : Int)
    (uuids : Nat → String) (dl pr : CallRecord → Bool) (raws : List RawCall)
    (hone : (raws.enum.filter (fun p =>
        (parse_call_record parseIso now (uuids p.1) p.2).isNone)).length = 1) :
    (parse_batch parseIso now uuids raws).length = raws.length - 1
    ∧ (insert_call_records_batch [] (parse_batch parseIso now uuids raws)).2
        = raws.length - 1
    ∧ ∀ r ∈ parse_batch parseIso now uuids raws,
        ∃ row ∈ poll_and_process_calls parseIso now uuids dl pr [] raws,
          row.call_id = r.call_id := by
  have hlen : (parse_batch parseIso now uuids raws).length = raws.length - 1 := by
    have hacc := length_filterMap_add_none
      (fun p : Nat × RawCall => parse_call_record parseIso now (uuids p.1) p.2)
      raws.enum
    rw [hone, List.enum_length] at hacc
    unfold parse_batch
    omega
  refine ⟨hlen, ?_, ?_⟩
  · unfold insert_call_records_batch
    by_cases he : (parse_batch parseIso now uuids raws).isEmpty = true
    · rw [if_pos he]
      rw [List.isEmpty_iff.mp he] at hlen
      simpa using hlen
    · rw [if_neg he]
      simpa using hlen
  · intro r hr
    have hne : ¬ raws.isEmpty = true := by
      intro hemp
      rw [List.isEmpty_iff.mp hemp] at hone
      simp at hone
    have hpe : ¬ (parse_batch parseIso now uuids raws).isEmpty = true := by
      intro hemp
      rw [List.isEmpty_iff.mp hemp] at hr
      simp at hr
    simp only [poll_and_process_calls]
    rw [if_neg hne, if_neg hpe]
    apply exists_id_audio_fold
    have hfold : (insert_call_records_batch [] (parse_batch parseIso now uuids raws)).1
        = (parse_batch parseIso now uuids raws).foldl insert_call_record [] := by
      unfold insert_call_records_batch
      rw [if_neg hpe]
    rw [hfold]
    exact exists_id_batch _ [] r hr

/-- A batch of three raw records with exactly one malformed. -/
def demoRawsMixed : List RawCall := [rawNoAudio, rawMalformed, rawWithAudio]

theorem C7_witness :
    (parse_batch (fun _ => none) 0 (fun _ => "u") demoRawsMixed).length
      = demoRawsMixed.length - 1 :=
  (C7_batch_resilience (fun _ => none) 0 (fun _ => "u")
    (fun _ => true) (fun _ => true) demoRawsMixed (by decide)).1

/-- Claim C8: cleanup_old_files with retention_days at most 0 is a no-op
returning 0; with a positive retention it removes exactly the files whose
mtime is strictly older than now minus retention_days days, keeps every file
at least as recent as the cutoff, leaves no survivor older than the cutoff,
and reports the number of removed files. -/
theorem C8_retention_window (retention_days now : Int)
    (files : List (String × Int)) :
    (retention_days ≤ 0 → cleanup_old_files retention_days now files = (0, files))
    ∧ (0 < retention_days →
        (∀ f ∈ files, f.2 < now - retention_days * 86400 →
          f ∉ (cleanup_old_files retention_days now files).2)
        ∧ (∀ f ∈ files, now - retention_days * 86400 ≤ f.2 →
          f ∈ (cleanup_old_files retention_days now files).2)
        ∧ (∀ f ∈ (cleanup_old_files retention_days now files).2,
          now - retention_days * 86400 ≤ f.2)
        ∧ (cleanup_old_files retention_days now files).1
            = (files.filter
                (fun f => decide (f.2 < now - retention_days * 86400))).length) := by
  constructor
  · intro h
    unfold cleanup_old_files
    rw [if_pos h]
  · intro h
    have hno : ¬ retention_days ≤ 0 := not_le.mpr h
    simp only [cleanup_old_files, if_neg hno]
    refine ⟨?_, ?_, ?_, by trivial⟩
    · intro f hf hlt hmem
      rw [List.mem_filter] at hmem
      have h2 := hmem.2
      simp only [Bool.not_eq_eq_eq_not, Bool.not_true, decide_eq_false_iff_not,
        not_lt] at h2
      omega
    · intro f hf hge
      rw [List.mem_filter]
      refine ⟨hf, ?_⟩
      simp only [Bool.not_eq_eq_eq_not, Bool.not_true, decide_eq_false_iff_not,
        not_lt]
      omega
    · intro f hmem
      rw [List.mem_filter] at hmem
      have h2 := hmem.2
      simp only [Bool.not_eq_eq_eq_not, Bool.not_true, decide_eq_false_iff_not,
        not_lt] at h2
      omega

theorem C8_witness :
    cleanup_old_files 0 1700000000 [("a.mp3", 5)] = (0, [("a.mp3", 5)])
    ∧ ("old.mp3", 0)
        ∉ (cleanup_old_files 7 1700000000
            [("old.mp3", 0), ("new.mp3", 1700000000)]).2 := by
  constructor
  · exact (C8_retention_window 0 1700000000 [("a.mp3", 5)]).1 (by norm_num)
  · exact ((C8_retention_window 7 1700000000
      [("old.mp3", 0), ("new.mp3", 1700000000)]).2 (by norm_num)).1
      ("old.mp3", 0) (List.mem_cons_self _ _) (by decide)
